import Mathlib

/-!
Shallow embedding of the GitHub-issues query-language semantic validator
(`src/parser/validation.ts`) and the repo extractor (`src/utils.ts`).

The AST node types, the tree walker `Utils.walk`, the printer `Utils.print`,
the symbol table and the scanner token kinds live in collaborator modules
that are not part of the visible source; those are modelled from the spec
(pre-order traversal visiting every node of the subtree, no filtering;
`getFirst` point lookups; `Missing` placeholders possible anywhere).
The validator and extractor bodies below follow the visible source directly.
-/

/-- Modelled from the spec: the scanner's token kinds; only the OR operator
token is inspected by the validator (`node.tokenType === TokenType.OR`). -/
inductive TokenType where
  | OR
  | LiteralTok
  | Whitespace
  deriving DecidableEq, Repr

/-- The discriminant (`_type`) of a tree node, from the spec's data model. -/
inductive NodeType where
  | query
  | literal
  | variableName
  | date
  | number
  | qualifiedValue
  | range
  | sortBy
  | compare
  | any
  | missing
  deriving DecidableEq, Repr

/-- Modelled from the spec: the value-level AST nodes that can occur inside a
query (every node kind except `Query`, `VariableDefinition` and the document
root, which are structurally above them).  A `QualifiedValue` carries its
qualifier name (the text of its qualifier `Literal` node) and a value
subtree of any kind; a `Range` has optional open/close boundary nodes. -/
inductive VNode where
  | literal (value : String)
  | variableName (value : String)
  | date (value : String)
  | number (value : String)
  | qualifiedValue (qualifier : String) (value : VNode)
  | range (rOpen : Option VNode) (rClose : Option VNode)
  | sortBy (criteria : VNode)
  | compare (cmp : String) (value : VNode)
  | any (tokenType : TokenType)
  | missing (message : String)

/-- The `_type` discriminant of a value-level node. -/
def VNode.nodeType : VNode → NodeType
  | .literal _ => .literal
  | .variableName _ => .variableName
  | .date _ => .date
  | .number _ => .number
  | .qualifiedValue _ _ => .qualifiedValue
  | .range _ _ => .range
  | .sortBy _ => .sortBy
  | .compare _ _ => .compare
  | .any _ => .any
  | .missing _ => .missing

/-- A `Query` node: the root of one search expression, a sequence of
value-level nodes. -/
structure QueryNode where
  nodes : List VNode

/-- Modelled from the spec: the value of a `VariableDefinition` is the query
it denotes, or a parser-inserted `Missing` placeholder when the definition
body failed to parse (the parser may insert `Missing` nodes standing in for
any syntactically invalid region). -/
inductive DefValue where
  | query (q : QueryNode)
  | missing (message : String)

/-- A `VariableDefinition` node: the defined name (text of its
`VariableName` name node) and the value subtree. -/
structure VariableDefinitionNode where
  name : String
  value : DefValue

/-- Modelled from the spec: the document root is a sequence of top-level
`Query` / `VariableDefinition` nodes. -/
inductive TopNode where
  | query (q : QueryNode)
  | varDefn (d : VariableDefinitionNode)

/-- `QueryDocumentNode`: the root of one document. -/
structure QueryDocumentNode where
  nodes : List TopNode

/-- The scalar value types a static qualifier may expect (string values of
the `ValueType` const enum). -/
inductive ValueType where
  | number
  | date
  | literal
  deriving DecidableEq, Repr

/-- The string value of a `ValueType` enum member (used verbatim inside the
message `Invalid value, expected ${info.value}`). -/
def ValueType.str : ValueType → String
  | .number => "number"
  | .date => "date"
  | .literal => "literal"

/-- Modelled from the spec: a `Static` symbol's payload is either a scalar
expected type or an ordered list of mutually-exclusive value sets. -/
inductive StaticValue where
  | type (t : ValueType)
  | sets (ss : List (List String))
  deriving DecidableEq, Repr

/-- Modelled from the spec: a symbol is `Static` (built-in qualifier) or
`User` (declared variable with its resolved type and literal value).
(The source calls this type `Symbol`; that name is already taken here.) -/
inductive QSymbol where
  | static (value : StaticValue)
  | user (type : ValueType) (value : String)
  deriving DecidableEq, Repr

/-- Modelled from the spec: the symbol table exposes only point lookups
`getFirst(name)` returning at most one symbol. -/
structure SymbolTable where
  getFirst : String → Option QSymbol

/-- Modelled from the spec: the fixed allowed sort-field value set
(`sortValues` from the symbols module); its concrete members are not given
by the spec, only that it is a fixed finite set of strings. -/
def sortValues : List String := ["comments", "created", "interactions", "reactions", "updated"]

/-- A single apostrophe character, used in diagnostic messages. -/
def squote : String := String.mk [Char.ofNat 39]

/-- The diagnostics record: offending node, message, and (for
mutual-exclusion conflicts) the earlier conflicting node. -/
structure ValidationError where
  node : VNode
  message : String
  conflictNode : Option VNode

/-- The per-query mutual-exclusion map (a JS `Map<string, Node>`). -/
abbrev MutualMap := List (String × VNode)

/-- `Map.set`: the newest binding wins on lookup. -/
def mapSet (m : MutualMap) (k : String) (v : VNode) : MutualMap := (k, v) :: m

/-- `Map.has`. -/
def mapHas (m : MutualMap) (k : String) : Bool := m.any (fun p => p.1 = k)

/-- `Map.get` (keyed on the newest binding). -/
def mapGet (m : MutualMap) (k : String) : Option VNode :=
  (m.find? (fun p => p.1 = k)).map (fun p => p.2)

/-- Pre-order listing of a value-level subtree: the node itself, then its
children's subtrees left to right (modelled from the spec's walker
contract: every node of the subtree, pre-order, no filtering). -/
def preorderV : VNode → List VNode
  | VNode.qualifiedValue q v => VNode.qualifiedValue q v :: preorderV v
  | VNode.range o c =>
      VNode.range o c ::
        ((match o with | some a => preorderV a | none => []) ++
         (match c with | some b => preorderV b | none => []))
  | VNode.sortBy cr => VNode.sortBy cr :: preorderV cr
  | VNode.compare op v => VNode.compare op v :: preorderV v
  | n => [n]

/-- The value-level nodes visited by `Utils.walk` over one query, in visit
order (the `Query` root itself is also visited but matches none of the
validator's node-kind rules, so it is omitted from this list). -/
def queryWalkList (q : QueryNode) : List VNode := q.nodes.flatMap preorderV

/-- `node.value._type === NodeType.Literal ? node.value.value : ''` -/
def valueLiteralText : VNode → String
  | .literal v => v
  | _ => ""

/-- The scan of `info.value` for the first set containing the literal
(`found` breaks out of the loop at the first containing set). -/
def findSet (ss : List (List String)) (v : String) : Option (List String) :=
  ss.find? (fun s => s.contains v)

/-- `for (let candidate of set) if (candidate !== value) mutual.set(candidate, node)` -/
def registerOthers (m : MutualMap) (s : List String) (v : String) (node : VNode) : MutualMap :=
  s.foldl (fun acc c => if c ≠ v then mapSet acc c node else acc) m

/-- `info.value.map(set => [...set].join(', ')).join(', ')` -/
def allValuesHint (ss : List (List String)) : String :=
  String.intercalate ", " (ss.map (fun s => String.intercalate ", " s))

/-- `Unknown qualifier: '<name>'` -/
def unknownQualifierMsg (name : String) : String :=
  "Unknown qualifier: " ++ squote ++ name ++ squote

/-- `Invalid value, expected ${info.value}` -/
def invalidValueMsg (t : ValueType) : String :=
  "Invalid value, expected " ++ t.str

/-- `isNumberOrDateLike` from the source: the node itself, a `Compare`
whose operand, or a `Range` one of whose boundaries, has the wanted kind. -/
def isNumberOrDateLike (node : VNode) (what : NodeType) : Bool :=
  if node.nodeType = what then true
  else
    match node with
    | .compare _ v => v.nodeType = what
    | .range o c =>
        (match o with | some a => a.nodeType = what | none => false) ||
        (match c with | some b => b.nodeType = what | none => false)
    | _ => false

/-- The body of `validateQuery`'s walk callback for one visited node: the
sequence of `_type`-guarded blocks (QualifiedValue, VariableName, Range,
SortBy, Missing) from the source, returning the updated mutual-exclusion
map and the diagnostics pushed for this node, in push order.  The blocks
are disjoint on `_type`, so at most one fires per node. -/
def visitQueryNode (symbols : SymbolTable) (mm : MutualMap) (node : VNode) :
    MutualMap × List ValidationError :=
  match node with
  | .qualifiedValue qual value =>
    match symbols.getFirst qual with
    | some (QSymbol.static sv) =>
      match sv with
      | .sets ss =>
        let v := valueLiteralText value
        if mapHas mm v then
          (mm, [⟨node, "Conflicts with mutual exclusive expression", mapGet mm v⟩])
        else
          match findSet ss v with
          | some s => (registerOthers mm s v node, [])
          | none => (mm, [⟨value, "Unknown value, must be one of: " ++ allValuesHint ss, none⟩])
      | .type t =>
        match value with
        | .variableName vn =>
          (mm,
           match symbols.getFirst vn with
           | some (QSymbol.user ut _) => if ut = t then [] else [⟨value, invalidValueMsg t, none⟩]
           | _ => [⟨value, invalidValueMsg t, none⟩])
        | _ =>
          if t = ValueType.date && !(isNumberOrDateLike value NodeType.date) then
            (mm, [⟨value, "Invalid value, expected date", none⟩])
          else if t = ValueType.number && !(isNumberOrDateLike value NodeType.number) then
            (mm, [⟨value, "Invalid value, expected number", none⟩])
          else (mm, [])
    | _ => (mm, [⟨.literal qual, unknownQualifierMsg qual, none⟩])
  | .variableName v =>
    (mm,
     match symbols.getFirst v with
     | some (QSymbol.user _ _) => []
     | _ => [⟨node, "Unknown variable", none⟩])
  | .range o c =>
    (mm,
     match o, c with
     | some a, some b =>
       if a.nodeType ≠ b.nodeType then
         [⟨node, "Range must start and end with equals types", none⟩]
       else []
     | _, _ => [])
  | .sortBy cr =>
    (mm,
     match cr with
     | .literal v =>
       if sortValues.contains v then []
       else [⟨cr, "Unknown value, must be one of: " ++ String.intercalate ", " sortValues, none⟩]
     | _ => [])
  | .missing msg => (mm, [⟨node, msg, none⟩])
  | _ => (mm, [])

/-- Folding the walk callback over a list of visited nodes, threading the
mutual-exclusion map and appending diagnostics in push order. -/
def runQueryWalk (symbols : SymbolTable) (st : MutualMap × List ValidationError)
    (ns : List VNode) : MutualMap × List ValidationError :=
  ns.foldl (fun st n =>
    let r := visitQueryNode symbols st.1 n
    (r.1, st.2 ++ r.2)) st

/-- `validateQuery`: a fresh mutual-exclusion map, then the walk over the
query's subtree. -/
def validateQuery (q : QueryNode) (symbols : SymbolTable) : List ValidationError :=
  (runQueryWalk symbols ([], []) (queryWalkList q)).2

/-- The walk callback of `validateVariableDefinition` for one visited node:
the OR-token rule and the self-reference rule (disjoint on `_type`). -/
def visitDefNode (defName : String) (node : VNode) : List ValidationError :=
  (match node with
   | VNode.any tt =>
     if tt = TokenType.OR then [⟨node, "OR is not supported when defining a variable", none⟩]
     else []
   | _ => []) ++
  (match node with
   | VNode.variableName v =>
     if v = defName then [⟨node, "Cannot reference a variable from its definition", none⟩]
     else []
   | _ => [])

/-- The value-level nodes visited by `Utils.walk(defNode.value, ...)`: the
subtree of the definition's query value (whose `Query` root matches neither
rule), or nothing beyond the placeholder itself when the value is a
`Missing` node (which also matches neither rule). -/
def defValueWalkList : DefValue → List VNode
  | .query q => queryWalkList q
  | .missing _ => []

/-- `validateVariableDefinition` from the source. -/
def validateVariableDefinition (d : VariableDefinitionNode) : List ValidationError :=
  (defValueWalkList d.value).flatMap (visitDefNode d.name)

/-- `validateQueryDocument`: the top-level walk over the document dispatches
its switch at every visited node; in this tree shape the `Query` and
`VariableDefinition` nodes occur exactly at the top level plus, for a
definition, at its query value, in pre-order: the definition node itself
(dispatching the definition checker) precedes its value's `Query` node
(dispatching the query validator). All other visited nodes match no switch
case. -/
def validateQueryDocument (doc : QueryDocumentNode) (symbols : SymbolTable) :
    List ValidationError :=
  doc.nodes.flatMap fun t =>
    match t with
    | TopNode.query q => validateQuery q symbols
    | TopNode.varDefn d =>
      validateVariableDefinition d ++
      (match d.value with
       | DefValue.query q => validateQuery q symbols
       | DefValue.missing _ => [])

/-- A structured owner/repo record (`RepoInfo` from `src/utils.ts`). -/
structure RepoInfo where
  owner : String
  repo : String
  deriving DecidableEq, Repr

/-- All value-level nodes of the document in `Utils.walk` visit order.  The
extractor's callback only reacts to `QualifiedValue` nodes, and those occur
exclusively at value level (inside top-level queries and inside a variable
definition's query value); the document root, the `Query`, the
`VariableDefinition` and its name node, and a `Missing` definition value
are also visited but can never match. -/
def docWalkVNodes (doc : QueryDocumentNode) : List VNode :=
  doc.nodes.flatMap fun t =>
    match t with
    | TopNode.query q => queryWalkList q
    | TopNode.varDefn d =>
      match d.value with
      | DefValue.query q => queryWalkList q
      | DefValue.missing _ => []

/-- The `.value` payload read off a resolved symbol by the extractor
(`project.symbols.getFirst(name)?.value`).  For a `User` symbol this is its
literal value string; for a `Static` scalar symbol it is the enum's string
value; a `Static` mutual-exclusion symbol carries an array, which can never
contain the separator character and thus never produces an emission — it is
modelled as an absent string. -/
def symbolValueString : QSymbol → Option String
  | QSymbol.user _ v => some v
  | QSymbol.static (StaticValue.type t) => some t.str
  | QSymbol.static (StaticValue.sets _) => none

/-- Modelled from the spec: `Utils.print` renders a node back to text from
the document's raw source, substituting nested variable references via the
given callback — the extractor passes a callback that always yields
`undefined`, leaving variable references empty. -/
def printV : VNode → String
  | .literal v => v
  | .variableName _ => ""
  | .date v => v
  | .number v => v
  | .qualifiedValue q v => q ++ ":" ++ printV v
  | .range o c =>
      (match o with | some a => printV a | none => "") ++ ".." ++
      (match c with | some b => printV b | none => "")
  | .sortBy cr => printV cr
  | .compare op v => op ++ printV v
  | .any _ => ""
  | .missing _ => ""

/-- JavaScript `String.prototype.indexOf` for a single character, over the
character list of the string: the index of the first occurrence, `-1` when
absent. -/
def strIndexOf (cs : List Char) (c : Char) : Int :=
  match cs with
  | [] => -1
  | x :: xs =>
    if x = c then 0
    else
      let r := strIndexOf xs c
      if r < 0 then -1 else r + 1

/-- `getRepoInfos` from `src/utils.ts`: walk the document collecting the
resolved string of every `repo:`-qualified value (a `VariableName` value
resolves through the symbol table, anything else prints from the source;
an absent or empty resolution is skipped), then emit an owner/repo record
for each collected string whose first `/` sits at an index greater than
zero.  The initial `Utils.print(doc, ...)` call in the source discards its
result and has no effect on the emitted sequence. -/
def getRepoInfos (doc : QueryDocumentNode) (symbols : SymbolTable) : List RepoInfo :=
  let repoStrings : List String :=
    (docWalkVNodes doc).filterMap fun n =>
      match n with
      | VNode.qualifiedValue q v =>
        if q = "repo" then
          let value : Option String :=
            match v with
            | VNode.variableName name => (symbols.getFirst name).bind symbolValueString
            | _ => some (printV v)
          match value with
          | some s => if s = "" then none else some s
          | none => none
        else none
      | _ => none
  repoStrings.filterMap fun s =>
    let cs := s.toList
    let idx := strIndexOf cs '/'
    if idx > 0 then
      some ⟨String.mk (cs.take idx.toNat), String.mk (cs.drop (idx.toNat + 1))⟩
    else none

/-- Claim-side characterization of the per-string split, following the
spec's words: split at the first occurrence of the separator; emit the left
and right substrings exactly when the separator occurs at a position
greater than zero. -/
def repoSplitSpec (s : String) : List RepoInfo :=
  if '/' ∈ s.toList ∧ 0 < (s.toList.takeWhile (fun c => c ≠ '/')).length then
    [⟨String.mk (s.toList.takeWhile (fun c => c ≠ '/')),
      String.mk ((s.toList.dropWhile (fun c => c ≠ '/')).drop 1)⟩]
  else []

/-! ### Helper lemmas about the mutual-exclusion map and the walk fold -/

theorem runQueryWalk_nil (symbols : SymbolTable) (st : MutualMap × List ValidationError) :
    runQueryWalk symbols st [] = st := rfl

theorem runQueryWalk_cons (symbols : SymbolTable) (m : MutualMap)
    (errs : List ValidationError) (n : VNode) (ns : List VNode) :
    runQueryWalk symbols (m, errs) (n :: ns) =
      runQueryWalk symbols ((visitQueryNode symbols m n).1,
        errs ++ (visitQueryNode symbols m n).2) ns := rfl

theorem runQueryWalk_append_errs (symbols : SymbolTable) (ns : List VNode) :
    ∀ (m : MutualMap) (errs : List ValidationError),
      runQueryWalk symbols (m, errs) ns =
        ((runQueryWalk symbols (m, []) ns).1, errs ++ (runQueryWalk symbols (m, []) ns).2) := by
  induction ns with
  | nil => intro m errs; simp [runQueryWalk_nil]
  | cons n ns ih =>
    intro m errs
    rw [runQueryWalk_cons, runQueryWalk_cons, ih,
      ih ((visitQueryNode symbols m n).1) ([] ++ (visitQueryNode symbols m n).2)]
    simp

theorem mapGet_cons (k : String) (x : String × VNode) (m : MutualMap) :
    mapGet (x :: m) k = if x.1 = k then some x.2 else mapGet m k := by
  by_cases h : x.1 = k
  · simp [mapGet, List.find?, h]
  · simp [mapGet, List.find?, h]

theorem mapHas_eq_isSome (m : MutualMap) (k : String) :
    mapHas m k = (mapGet m k).isSome := by
  induction m with
  | nil => rfl
  | cons x m ih =>
    rw [mapGet_cons]
    by_cases h : x.1 = k
    · simp [mapHas, List.any_cons, h]
    · simp only [mapHas, List.any_cons, h, if_false, decide_eq_true_eq] at ih ⊢
      simp [h, ih]

theorem registerOthers_cons (m : MutualMap) (x : String) (xs : List String)
    (v : String) (node : VNode) :
    registerOthers m (x :: xs) v node =
      registerOthers (if x ≠ v then (x, node) :: m else m) xs v node := rfl

theorem mapGet_registerOthers_of_get (s : List String) :
    ∀ (m : MutualMap) (v c : String) (node : VNode), mapGet m c = some node →
      mapGet (registerOthers m s v node) c = some node := by
  induction s with
  | nil => intro m v c node h; exact h
  | cons x xs ih =>
    intro m v c node h
    rw [registerOthers_cons]
    by_cases hxv : x ≠ v
    · rw [if_pos hxv]
      apply ih
      rw [mapGet_cons]
      by_cases hxc : x = c
      · simp [hxc]
      · simp [hxc, h]
    · rw [if_neg hxv]
      exact ih m v c node h

theorem mapGet_registerOthers (s : List String) :
    ∀ (m : MutualMap) (v c : String) (node : VNode),
      c ∈ s → c ≠ v →
      mapGet (registerOthers m s v node) c = some node := by
  induction s with
  | nil => intro m v c node h; exact absurd h (List.not_mem_nil c)
  | cons x xs ih =>
    intro m v c node hc hne
    rw [registerOthers_cons]
    rcases List.mem_cons.mp hc with hxc | hxs
    · subst hxc
      rw [if_pos hne]
      apply mapGet_registerOthers_of_get
      simp [mapGet_cons]
    · by_cases hxv : x ≠ v
      · rw [if_pos hxv]; exact ih _ v c node hxs hne
      · rw [if_neg hxv]; exact ih m v c node hxs hne

theorem mapHas_registerOthers_self (s : List String) :
    ∀ (m : MutualMap) (v : String) (node : VNode), mapHas m v = false →
      mapHas (registerOthers m s v node) v = false := by
  induction s with
  | nil => intro m v node h; exact h
  | cons x xs ih =>
    intro m v node h
    rw [registerOthers_cons]
    by_cases hxv : x ≠ v
    · rw [if_pos hxv]
      apply ih
      simp only [mapHas, List.any_cons, Bool.or_eq_false_iff, decide_eq_false_iff_not] at h ⊢
      exact ⟨fun he => hxv he, h⟩
    · rw [if_neg hxv]
      exact ih m v node h

/-- The empty symbol table. -/
def symsEmpty : SymbolTable := ⟨fun _ => none⟩

/-- A symbol table binding the `is` qualifier to mutual-exclusion sets. -/
def symsIs : SymbolTable :=
  ⟨fun n => if n = "is" then
      some (QSymbol.static (StaticValue.sets [["pr", "issue"], ["open", "closed"]]))
    else none⟩

theorem contains_of_mem {s : List String} {c : String} (h : c ∈ s) : s.contains c = true := by
  simpa using h

/-- C1: within one query, two qualifier values from the same
mutually-exclusive set of the same static qualifier produce exactly one
conflict diagnostic, attached to the second occurrence and carrying the
first occurrence as the conflicting node; the identical value repeated
twice never conflicts; and values in two sibling queries never conflict,
the mutual-exclusion map being fresh per query. -/
theorem C1_mutual_exclusion (symbols : SymbolTable) (q v1 v2 : String)
    (ss : List (List String)) (s : List String)
    (hq : symbols.getFirst q = some (QSymbol.static (StaticValue.sets ss)))
    (hfind : findSet ss v1 = some s)
    (hv2 : v2 ∈ s) (hne : v2 ≠ v1) :
    (validateQueryDocument
        ⟨[TopNode.query ⟨[VNode.qualifiedValue q (VNode.literal v1),
                          VNode.qualifiedValue q (VNode.literal v2)]⟩]⟩ symbols =
      [⟨VNode.qualifiedValue q (VNode.literal v2),
        "Conflicts with mutual exclusive expression",
        some (VNode.qualifiedValue q (VNode.literal v1))⟩]) ∧
    (validateQueryDocument
        ⟨[TopNode.query ⟨[VNode.qualifiedValue q (VNode.literal v1),
                          VNode.qualifiedValue q (VNode.literal v1)]⟩]⟩ symbols = []) ∧
    (validateQueryDocument
        ⟨[TopNode.query ⟨[VNode.qualifiedValue q (VNode.literal v1)]⟩,
          TopNode.query ⟨[VNode.qualifiedValue q (VNode.literal v2)]⟩]⟩ symbols = []) := by
  have hsmem : s ∈ ss := List.mem_of_find?_eq_some hfind
  have hv2find : ∃ s2, findSet ss v2 = some s2 := by
    have hs : (findSet ss v2).isSome := by
      rw [findSet, List.find?_isSome]
      exact ⟨s, hsmem, contains_of_mem hv2⟩
    exact Option.isSome_iff_exists.mp hs
  obtain ⟨s2, hfind2⟩ := hv2find
  have e_qv : ∀ (mm : MutualMap) (v : String) (s' : List String),
      mapHas mm v = false → findSet ss v = some s' →
      visitQueryNode symbols mm (VNode.qualifiedValue q (VNode.literal v)) =
        (registerOthers mm s' v (VNode.qualifiedValue q (VNode.literal v)), []) := by
    intro mm v s' hh hf
    simp [visitQueryNode, hq, valueLiteralText, hh, hf]
  have e_lit : ∀ (mm : MutualMap) (x : String),
      visitQueryNode symbols mm (VNode.literal x) = (mm, []) := fun _ _ => rfl
  set n1 := VNode.qualifiedValue q (VNode.literal v1) with hn1
  set n2 := VNode.qualifiedValue q (VNode.literal v2) with hn2
  have hget : mapGet (registerOthers [] s v1 n1) v2 = some n1 :=
    mapGet_registerOthers s [] v1 v2 n1 hv2 hne
  have hhas2 : mapHas (registerOthers [] s v1 n1) v2 = true := by
    rw [mapHas_eq_isSome, hget]; rfl
  have e_conflict : visitQueryNode symbols (registerOthers [] s v1 n1) n2 =
      (registerOthers [] s v1 n1,
       [⟨n2, "Conflicts with mutual exclusive expression", some n1⟩]) := by
    rw [hn2]
    simp [visitQueryNode, hq, valueLiteralText, hhas2, hget]
  have hhas_self : mapHas (registerOthers [] s v1 n1) v1 = false :=
    mapHas_registerOthers_self s [] v1 n1 rfl
  refine ⟨?_, ?_, ?_⟩
  · simp only [validateQueryDocument, List.flatMap_cons, List.flatMap_nil,
      validateQuery, queryWalkList, preorderV, List.cons_append, List.nil_append,
      List.append_nil, runQueryWalk_cons, runQueryWalk_nil,
      e_qv [] v1 s rfl hfind, e_lit, e_conflict]
  · simp only [validateQueryDocument, List.flatMap_cons, List.flatMap_nil,
      validateQuery, queryWalkList, preorderV, List.cons_append, List.nil_append,
      List.append_nil, runQueryWalk_cons, runQueryWalk_nil,
      e_qv [] v1 s rfl hfind, e_lit,
      e_qv (registerOthers [] s v1 n1) v1 s hhas_self hfind]
  · simp only [validateQueryDocument, List.flatMap_cons, List.flatMap_nil,
      validateQuery, queryWalkList, preorderV, List.cons_append, List.nil_append,
      List.append_nil, runQueryWalk_cons, runQueryWalk_nil,
      e_qv [] v1 s rfl hfind, e_qv [] v2 s2 rfl hfind2, e_lit]

/-- Witness for C1 at the spec's `is:pr is:issue` scenario. -/
theorem C1_mutual_exclusion_witness :
    validateQueryDocument
        ⟨[TopNode.query ⟨[VNode.qualifiedValue "is" (VNode.literal "pr"),
                          VNode.qualifiedValue "is" (VNode.literal "issue")]⟩]⟩ symsIs =
      [⟨VNode.qualifiedValue "is" (VNode.literal "issue"),
        "Conflicts with mutual exclusive expression",
        some (VNode.qualifiedValue "is" (VNode.literal "pr"))⟩] :=
  (C1_mutual_exclusion symsIs "is" "pr" "issue" [["pr", "issue"], ["open", "closed"]]
    ["pr", "issue"] rfl rfl (by simp) (by simp)).1

/-- A symbol table binding the `milestone` qualifier to the scalar literal
type. -/
def symsMilestone : SymbolTable :=
  ⟨fun n => if n = "milestone" then some (QSymbol.static (StaticValue.type ValueType.literal))
    else none⟩

/-- C2 counterexample: under an unknown qualifier, the walk still visits the
value subtree — `foo:$v` with an empty symbol table yields the unknown
qualifier diagnostic AND an `Unknown variable` diagnostic on the value
node, so the value subtree does not go unchecked. -/
theorem C2_counterexample :
    validateQueryDocument
        ⟨[TopNode.query ⟨[VNode.qualifiedValue "foo" (VNode.variableName "v")]⟩]⟩ symsEmpty =
      [⟨VNode.literal "foo", unknownQualifierMsg "foo", none⟩,
       ⟨VNode.variableName "v", "Unknown variable", none⟩] := rfl

/-- C2 amended: a `QualifiedValue` whose qualifier is absent or non-Static
contributes exactly one `Unknown qualifier` diagnostic and no further
qualifier checks for that node (the mutual-exclusion map is untouched);
however the walk still descends into the value subtree, which receives
exactly the diagnostics it would receive standing alone in the query. -/
theorem C2_unknown_qualifier (symbols : SymbolTable) (q : String) (v : VNode)
    (hq : symbols.getFirst q = none ∨
          ∃ t s, symbols.getFirst q = some (QSymbol.user t s)) :
    (∀ mm : MutualMap, visitQueryNode symbols mm (VNode.qualifiedValue q v) =
        (mm, [⟨VNode.literal q, unknownQualifierMsg q, none⟩])) ∧
    validateQuery ⟨[VNode.qualifiedValue q v]⟩ symbols =
      ⟨VNode.literal q, unknownQualifierMsg q, none⟩ :: validateQuery ⟨[v]⟩ symbols := by
  have e_unknown : ∀ mm : MutualMap, visitQueryNode symbols mm (VNode.qualifiedValue q v) =
      (mm, [⟨VNode.literal q, unknownQualifierMsg q, none⟩]) := by
    intro mm
    rcases hq with h | ⟨t, s, h⟩
    · simp [visitQueryNode, h]
    · simp [visitQueryNode, h]
  refine ⟨e_unknown, ?_⟩
  simp only [validateQuery, queryWalkList, List.flatMap_cons, List.flatMap_nil,
    preorderV, List.append_nil, List.cons_append, List.nil_append,
    runQueryWalk_cons, e_unknown]
  rw [runQueryWalk_append_errs]
  simp

/-- Witness for C2's amended theorem at `foo:$v` over the empty table. -/
theorem C2_unknown_qualifier_witness :
    visitQueryNode symsEmpty [] (VNode.qualifiedValue "foo" (VNode.variableName "v")) =
      ([], [⟨VNode.literal "foo", unknownQualifierMsg "foo", none⟩]) :=
  (C2_unknown_qualifier symsEmpty "foo" (VNode.variableName "v") (Or.inl rfl)).1 []

/-- C3 counterexample: a `VariableName` sitting as the value of a
`QualifiedValue` receives BOTH the qualifier's `Invalid value, expected
literal` diagnostic and its own `Unknown variable` diagnostic —
`milestone:$v` with `$v` undeclared yields two diagnostics, not one. -/
theorem C3_counterexample :
    validateQueryDocument
        ⟨[TopNode.query ⟨[VNode.qualifiedValue "milestone" (VNode.variableName "v")]⟩]⟩
        symsMilestone =
      [⟨VNode.variableName "v", invalidValueMsg ValueType.literal, none⟩,
       ⟨VNode.variableName "v", "Unknown variable", none⟩] := rfl

/-- C3 amended: a `VariableName` node yields `Unknown variable` exactly when
it resolves to no symbol or to a non-User symbol, wherever the walk meets
it — including in qualifier value position, where an unresolvable variable
receives both the qualifier's `Invalid value, expected <type>` diagnostic
and the `Unknown variable` diagnostic. -/
theorem C3_unknown_variable (symbols : SymbolTable) (w : String) :
    (validateQuery ⟨[VNode.variableName w]⟩ symbols =
      match symbols.getFirst w with
      | some (QSymbol.user _ _) => []
      | _ => [⟨VNode.variableName w, "Unknown variable", none⟩]) ∧
    (∀ (q : String) (t : ValueType),
      symbols.getFirst q = some (QSymbol.static (StaticValue.type t)) →
      (∀ u s, symbols.getFirst w ≠ some (QSymbol.user u s)) →
      validateQuery ⟨[VNode.qualifiedValue q (VNode.variableName w)]⟩ symbols =
        [⟨VNode.variableName w, invalidValueMsg t, none⟩,
         ⟨VNode.variableName w, "Unknown variable", none⟩]) := by
  constructor
  · rcases hw : symbols.getFirst w with _ | sym
    · simp [validateQuery, queryWalkList, preorderV, runQueryWalk_cons, runQueryWalk_nil,
        visitQueryNode, hw]
    · cases sym with
      | static sv =>
        simp [validateQuery, queryWalkList, preorderV, runQueryWalk_cons, runQueryWalk_nil,
          visitQueryNode, hw]
      | user t s =>
        simp [validateQuery, queryWalkList, preorderV, runQueryWalk_cons, runQueryWalk_nil,
          visitQueryNode, hw]
  · intro q t hq hw
    have hw' : ∀ mm : MutualMap, visitQueryNode symbols mm (VNode.variableName w) =
        (mm, [⟨VNode.variableName w, "Unknown variable", none⟩]) := by
      intro mm
      rcases h : symbols.getFirst w with _ | sym
      · simp [visitQueryNode, h]
      · cases sym with
        | static sv => simp [visitQueryNode, h]
        | user u s => exact absurd h (hw u s)
    have hqv : ∀ mm : MutualMap,
        visitQueryNode symbols mm (VNode.qualifiedValue q (VNode.variableName w)) =
          (mm, [⟨VNode.variableName w, invalidValueMsg t, none⟩]) := by
      intro mm
      rcases h : symbols.getFirst w with _ | sym
      · simp [visitQueryNode, hq, h]
      · cases sym with
        | static sv => simp [visitQueryNode, hq, h]
        | user u s => exact absurd h (hw u s)
    simp only [validateQuery, queryWalkList, List.flatMap_cons, List.flatMap_nil,
      preorderV, List.append_nil, List.cons_append, List.nil_append,
      runQueryWalk_cons, runQueryWalk_nil, hw', hqv]

/-- Witness for C3's amended theorem at `milestone:$v`, `$v` undeclared. -/
theorem C3_unknown_variable_witness :
    validateQuery ⟨[VNode.qualifiedValue "milestone" (VNode.variableName "v")]⟩ symsMilestone =
      [⟨VNode.variableName "v", invalidValueMsg ValueType.literal, none⟩,
       ⟨VNode.variableName "v", "Unknown variable", none⟩] :=
  (C3_unknown_variable symsMilestone "v").2 "milestone" ValueType.literal rfl
    (by intro u s; simp [symsMilestone, SymbolTable.getFirst])

/-- C7: a `Range` with both boundaries present and of different node kinds
yields exactly one `Range must start and end with equals types` diagnostic,
attached to the `Range` node itself; zero or one boundary, or two
boundaries of equal kind, yield no such diagnostic. -/
theorem C7_range_boundary_kinds (symbols : SymbolTable) :
    (∀ (a b : VNode), a.nodeType ≠ b.nodeType → ∀ mm : MutualMap,
      visitQueryNode symbols mm (VNode.range (some a) (some b)) =
        (mm, [⟨VNode.range (some a) (some b),
              "Range must start and end with equals types", none⟩])) ∧
    (∀ (a b : VNode), a.nodeType = b.nodeType → ∀ mm : MutualMap,
      visitQueryNode symbols mm (VNode.range (some a) (some b)) = (mm, [])) ∧
    (∀ (b : Option VNode) (mm : MutualMap),
      visitQueryNode symbols mm (VNode.range none b) = (mm, []) ) ∧
    (∀ (a : VNode) (mm : MutualMap),
      visitQueryNode symbols mm (VNode.range (some a) none) = (mm, []) ) ∧
    (∀ d n : String,
      validateQuery ⟨[VNode.range (some (VNode.date d)) (some (VNode.number n))]⟩ symbols =
        [⟨VNode.range (some (VNode.date d)) (some (VNode.number n)),
          "Range must start and end with equals types", none⟩]) ∧
    (∀ d e : String,
      validateQuery ⟨[VNode.range (some (VNode.date d)) (some (VNode.date e))]⟩ symbols = []) ∧
    (∀ d : String,
      validateQuery ⟨[VNode.range (some (VNode.date d)) none]⟩ symbols = []) := by
  refine ⟨?_, ?_, ?_, ?_, ?_, ?_, ?_⟩
  · intro a b hne mm; simp [visitQueryNode, hne]
  · intro a b heq mm; simp [visitQueryNode, heq]
  · intro b mm; cases b <;> rfl
  · intro a mm; rfl
  · intro d n
    simp [validateQuery, queryWalkList, preorderV, runQueryWalk_cons, runQueryWalk_nil,
      visitQueryNode, VNode.nodeType]
  · intro d e
    simp [validateQuery, queryWalkList, preorderV, runQueryWalk_cons, runQueryWalk_nil,
      visitQueryNode, VNode.nodeType]
  · intro d
    simp [validateQuery, queryWalkList, preorderV, runQueryWalk_cons, runQueryWalk_nil,
      visitQueryNode]

/-- Witness for C7 at `1..2020-01-01`-style boundaries. -/
theorem C7_range_boundary_kinds_witness :
    validateQuery ⟨[VNode.range (some (VNode.date "2020-01-01"))
        (some (VNode.number "1"))]⟩ symsEmpty =
      [⟨VNode.range (some (VNode.date "2020-01-01")) (some (VNode.number "1")),
        "Range must start and end with equals types", none⟩] :=
  (C7_range_boundary_kinds symsEmpty).2.2.2.2.1 "2020-01-01" "1"

/-- Whether a node is an `Any` node carrying the OR token. -/
def isOrAny : VNode → Bool
  | VNode.any tt => tt = TokenType.OR
  | _ => false

/-- Whether a node is a `VariableName` equal to the defined name. -/
def isSelfRef (name : String) : VNode → Bool
  | VNode.variableName v => v = name
  | _ => false

theorem visitDefNode_length (name : String) (n : VNode) :
    (visitDefNode name n).length =
      (if isOrAny n then 1 else 0) + (if isSelfRef name n then 1 else 0) := by
  cases n with
  | any tt => by_cases h : tt = TokenType.OR <;> simp [visitDefNode, isOrAny, isSelfRef, h]
  | variableName v => by_cases h : v = name <;> simp [visitDefNode, isOrAny, isSelfRef, h]
  | _ => simp [visitDefNode, isOrAny, isSelfRef]

theorem flatMap_visitDefNode_length (name : String) (ls : List VNode) :
    (ls.flatMap (visitDefNode name)).length =
      ls.countP isOrAny + ls.countP (isSelfRef name) := by
  induction ls with
  | nil => rfl
  | cons n ns ih =>
    rw [List.flatMap_cons, List.length_append, ih, List.countP_cons, List.countP_cons,
      visitDefNode_length]
    omega

/-- C8: the definition checker emits `OR is not supported when defining a
variable` for each `Any` node carrying the OR token in the definition's
value subtree, and `Cannot reference a variable from its definition` for
each `VariableName` equal to the definition's own name; a definition free
of both yields no diagnostic at all. -/
theorem C8_variable_definition_rules (name : String) (q : QueryNode) :
    ((validateVariableDefinition ⟨name, DefValue.query q⟩).length =
      (queryWalkList q).countP isOrAny + (queryWalkList q).countP (isSelfRef name)) ∧
    (∀ n ∈ queryWalkList q, isOrAny n = true →
      (⟨n, "OR is not supported when defining a variable", none⟩ : ValidationError) ∈
        validateVariableDefinition ⟨name, DefValue.query q⟩) ∧
    (∀ n ∈ queryWalkList q, isSelfRef name n = true →
      (⟨n, "Cannot reference a variable from its definition", none⟩ : ValidationError) ∈
        validateVariableDefinition ⟨name, DefValue.query q⟩) ∧
    ((∀ n ∈ queryWalkList q, isOrAny n = false ∧ isSelfRef name n = false) →
      validateVariableDefinition ⟨name, DefValue.query q⟩ = []) := by
  refine ⟨?_, ?_, ?_, ?_⟩
  · exact flatMap_visitDefNode_length name (queryWalkList q)
  · intro n hn hor
    have hd : (⟨n, "OR is not supported when defining a variable", none⟩ : ValidationError) ∈
        visitDefNode name n := by
      cases n with
      | any tt =>
        simp only [isOrAny, decide_eq_true_eq] at hor
        simp [visitDefNode, hor]
      | _ => simp [isOrAny] at hor
    exact List.mem_flatMap.mpr ⟨n, hn, hd⟩
  · intro n hn hself
    have hd : (⟨n, "Cannot reference a variable from its definition", none⟩ : ValidationError) ∈
        visitDefNode name n := by
      cases n with
      | variableName v =>
        simp only [isSelfRef, decide_eq_true_eq] at hself
        simp [visitDefNode, hself]
      | _ => simp [isSelfRef] at hself
    exact List.mem_flatMap.mpr ⟨n, hn, hd⟩
  · intro hclean
    have : ∀ n ∈ queryWalkList q, visitDefNode name n = [] := by
      intro n hn
      obtain ⟨h1, h2⟩ := hclean n hn
      cases n with
      | any tt =>
        simp only [isOrAny, decide_eq_false_iff_not] at h1
        simp [visitDefNode, h1]
      | variableName v =>
        simp only [isSelfRef, decide_eq_false_iff_not] at h2
        simp [visitDefNode, h2]
      | _ => simp [visitDefNode]
    have hgen : ∀ ls : List VNode, (∀ n ∈ ls, visitDefNode name n = []) →
        ls.flatMap (visitDefNode name) = [] := by
      intro ls
      induction ls with
      | nil => intro _; rfl
      | cons n ns ih =>
        intro h
        rw [List.flatMap_cons, h n (List.mem_cons_self n ns),
          ih (fun x hx => h x (List.mem_cons_of_mem n hx))]
        rfl
    simp only [validateVariableDefinition, defValueWalkList]
    exact hgen _ this

/-- Witness for C8 on the definition `$x = OR $x label:ok`. -/
theorem C8_variable_definition_rules_witness :
    (⟨VNode.any TokenType.OR, "OR is not supported when defining a variable", none⟩ :
        ValidationError) ∈
      validateVariableDefinition ⟨"x",
        DefValue.query ⟨[VNode.any TokenType.OR, VNode.variableName "x", VNode.literal "ok"]⟩⟩ :=
  (C8_variable_definition_rules "x"
      ⟨[VNode.any TokenType.OR, VNode.variableName "x", VNode.literal "ok"]⟩).2.1
    (VNode.any TokenType.OR) (by simp [queryWalkList, preorderV]) rfl

/-- The `Query` nodes the top-level walk dispatches to `validateQuery`, in
visit order: the top-level queries and the query values of variable
definitions. -/
def docQueries (doc : QueryDocumentNode) : List QueryNode :=
  doc.nodes.flatMap fun t =>
    match t with
    | TopNode.query q => [q]
    | TopNode.varDefn d =>
      match d.value with
      | DefValue.query q => [q]
      | DefValue.missing _ => []

theorem mem_runQueryWalk_missing (symbols : SymbolTable) (msg : String) :
    ∀ (ns : List VNode) (m : MutualMap) (errs : List ValidationError),
      VNode.missing msg ∈ ns →
      (⟨VNode.missing msg, msg, none⟩ : ValidationError) ∈
        (runQueryWalk symbols (m, errs) ns).2 := by
  intro ns
  induction ns with
  | nil => intro m errs h; exact absurd h (List.not_mem_nil _)
  | cons n ns ih =>
    intro m errs h
    rcases List.mem_cons.mp h with h1 | h2
    · rw [← h1, runQueryWalk_cons, runQueryWalk_append_errs]
      simp [visitQueryNode]
    · rw [runQueryWalk_cons]
      exact ih _ _ h2

theorem mem_validateQueryDocument_of_mem_query (symbols : SymbolTable)
    (e : ValidationError) (q : QueryNode) :
    ∀ ts : List TopNode,
      q ∈ docQueries ⟨ts⟩ → e ∈ validateQuery q symbols →
      e ∈ validateQueryDocument ⟨ts⟩ symbols := by
  intro ts
  induction ts with
  | nil => intro h _; exact absurd h (List.not_mem_nil _)
  | cons t ts ih =>
    intro hq he
    cases t with
    | query q' =>
      have hq' : q ∈ [q'] ++ docQueries ⟨ts⟩ := hq
      show e ∈ validateQuery q' symbols ++ validateQueryDocument ⟨ts⟩ symbols
      rcases List.mem_append.mp hq' with h1 | h2
      · simp only [List.mem_singleton] at h1
        subst h1
        exact List.mem_append.mpr (Or.inl he)
      · exact List.mem_append.mpr (Or.inr (ih h2 he))
    | varDefn d =>
      obtain ⟨dn, dv⟩ := d
      cases dv with
      | query q' =>
        have hq' : q ∈ [q'] ++ docQueries ⟨ts⟩ := hq
        show e ∈ (validateVariableDefinition ⟨dn, DefValue.query q'⟩ ++
            validateQuery q' symbols) ++ validateQueryDocument ⟨ts⟩ symbols
        rcases List.mem_append.mp hq' with h1 | h2
        · simp only [List.mem_singleton] at h1
          subst h1
          exact List.mem_append.mpr (Or.inl (List.mem_append.mpr (Or.inr he)))
        · exact List.mem_append.mpr (Or.inr (ih h2 he))
      | missing m =>
        have hq' : q ∈ ([] : List QueryNode) ++ docQueries ⟨ts⟩ := hq
        show e ∈ (validateVariableDefinition ⟨dn, DefValue.missing m⟩ ++ []) ++
            validateQueryDocument ⟨ts⟩ symbols
        rcases List.mem_append.mp hq' with h1 | h2
        · exact absurd h1 (List.not_mem_nil _)
        · exact List.mem_append.mpr (Or.inr (ih h2 he))

/-- C6 counterexample: a `Missing` placeholder standing as a variable
definition's entire value is silently dropped — neither the top-level
dispatch nor the definition checker reports its message. -/
theorem C6_counterexample :
    validateQueryDocument ⟨[TopNode.varDefn ⟨"x", DefValue.missing "Expected value"⟩]⟩
      symsEmpty = [] := rfl

/-- C6 amended: every `Missing` node inside a query subtree (a top-level
query or a definition's query value) has its carried message emitted
verbatim, with no further rule applied to the placeholder node; only a
`Missing` node standing as a variable definition's whole value escapes. -/
theorem C6_missing_reported (symbols : SymbolTable) :
    (∀ (mm : MutualMap) (msg : String),
      visitQueryNode symbols mm (VNode.missing msg) =
        (mm, [⟨VNode.missing msg, msg, none⟩])) ∧
    (∀ (ts : List TopNode) (msg : String) (q : QueryNode),
      q ∈ docQueries ⟨ts⟩ → VNode.missing msg ∈ queryWalkList q →
      (⟨VNode.missing msg, msg, none⟩ : ValidationError) ∈
        validateQueryDocument ⟨ts⟩ symbols) := by
  constructor
  · intro mm msg; rfl
  · intro ts msg q hq hmem
    refine mem_validateQueryDocument_of_mem_query symbols _ q ts hq ?_
    exact mem_runQueryWalk_missing symbols msg (queryWalkList q) [] [] hmem

/-- Witness for C6's amended theorem: a `Missing` inside a top-level query. -/
theorem C6_missing_reported_witness :
    (⟨VNode.missing "parse error", "parse error", none⟩ : ValidationError) ∈
      validateQueryDocument ⟨[TopNode.query ⟨[VNode.missing "parse error"]⟩]⟩ symsEmpty :=
  (C6_missing_reported symsEmpty).2 [TopNode.query ⟨[VNode.missing "parse error"]⟩]
    "parse error" ⟨[VNode.missing "parse error"]⟩
    (by simp [docQueries]) (by simp [queryWalkList, preorderV])

/-- C10 counterexample: a `Missing` node inside a variable definition's
value subtree DOES produce a diagnostic — the top-level walk also
dispatches the definition's `Query` value to the query validator. -/
theorem C10_counterexample :
    validateQueryDocument ⟨[TopNode.varDefn ⟨"x", DefValue.query ⟨[VNode.missing "oops"]⟩⟩]⟩
      symsEmpty = [⟨VNode.missing "oops", "oops", none⟩] := rfl

/-- C10 amended: the top-level walk routes a `VariableDefinition` node to
the definition checker and then, because the walk keeps descending, also
routes the definition's `Query` value to the query validator; so nodes
inside a definition receive the full query diagnostics in addition to the
two definition-local ones (an unknown qualifier inside a definition, for
instance, is reported). -/
theorem C10_definition_routing (symbols : SymbolTable) (name : String) (q : QueryNode) :
    (validateQueryDocument ⟨[TopNode.varDefn ⟨name, DefValue.query q⟩]⟩ symbols =
      validateVariableDefinition ⟨name, DefValue.query q⟩ ++ validateQuery q symbols) ∧
    (validateQueryDocument
        ⟨[TopNode.varDefn ⟨"x",
            DefValue.query ⟨[VNode.qualifiedValue "foo" (VNode.literal "bar")]⟩⟩]⟩ symsEmpty =
      [⟨VNode.literal "foo", unknownQualifierMsg "foo", none⟩]) := by
  constructor
  · simp [validateQueryDocument]
  · rfl

/-- Number of tree nodes of a value-level subtree in the source
representation (a `QualifiedValue` carries its qualifier `Literal` node,
hence the extra unit there). -/
def countV : VNode → Nat
  | VNode.qualifiedValue _ v => 2 + countV v
  | VNode.range o c =>
      1 + (match o with | some a => countV a | none => 0) +
          (match c with | some b => countV b | none => 0)
  | VNode.sortBy cr => 1 + countV cr
  | VNode.compare _ v => 1 + countV v
  | _ => 1

/-- Number of tree nodes of a `Query` subtree (the `Query` node itself plus
its children's subtrees). -/
def countQ (q : QueryNode) : Nat := 1 + (q.nodes.map countV).sum

/-- Number of tree nodes of a definition's value subtree. -/
def countDefValue : DefValue → Nat
  | DefValue.query q => countQ q
  | DefValue.missing _ => 1

/-- Number of tree nodes of a top-level node (a definition carries its
`VariableName` name node, hence the extra unit there). -/
def countTop : TopNode → Nat
  | TopNode.query q => countQ q
  | TopNode.varDefn d => 2 + countDefValue d.value

/-- Number of tree nodes of the whole document, root included. -/
def countNodes (doc : QueryDocumentNode) : Nat := 1 + (doc.nodes.map countTop).sum

theorem visitQueryNode_len (symbols : SymbolTable) (mm : MutualMap) (n : VNode) :
    ((visitQueryNode symbols mm n).2).length ≤ 1 := by
  cases n with
  | qualifiedValue qual value =>
    simp only [visitQueryNode]
    rcases symbols.getFirst qual with _ | sym
    · simp
    cases sym with
    | user t s => simp
    | static sv =>
      cases sv with
      | sets ss =>
        dsimp only
        by_cases h : mapHas mm (valueLiteralText value) = true
        · simp [h]
        · simp only [h, if_false]
          rcases hf : findSet ss (valueLiteralText value) with _ | s
          · simp
          · simp
      | type t =>
        cases value with
        | variableName vn =>
          dsimp only
          rcases symbols.getFirst vn with _ | sym2
          · simp
          cases sym2 with
          | static sv2 => simp
          | user ut uv =>
            dsimp only
            split <;> simp
        | _ =>
          dsimp only
          split
          · simp
          split <;> simp
  | range o c =>
    simp only [visitQueryNode]
    cases o <;> cases c <;> dsimp only
    · simp
    · simp
    · simp
    · split <;> simp
  | sortBy cr =>
    simp only [visitQueryNode]
    cases cr <;> dsimp only <;> try simp
    split <;> simp
  | variableName v =>
    simp only [visitQueryNode]
    rcases symbols.getFirst v with _ | sym2
    · simp
    cases sym2 <;> simp
  | _ => simp [visitQueryNode]

theorem runQueryWalk_len (symbols : SymbolTable) :
    ∀ (ns : List VNode) (m : MutualMap) (errs : List ValidationError),
      ((runQueryWalk symbols (m, errs) ns).2).length ≤ errs.length + ns.length := by
  intro ns
  induction ns with
  | nil => intro m errs; simp [runQueryWalk_nil]
  | cons n ns ih =>
    intro m errs
    rw [runQueryWalk_cons]
    have h1 := ih (visitQueryNode symbols m n).1 (errs ++ (visitQueryNode symbols m n).2)
    have h2 := visitQueryNode_len symbols m n
    rw [List.length_append] at h1
    simp only [List.length_cons]
    omega

theorem preorderV_length_le_countV : ∀ v : VNode, (preorderV v).length ≤ countV v
  | VNode.literal _ => by simp [preorderV, countV]
  | VNode.variableName _ => by simp [preorderV, countV]
  | VNode.date _ => by simp [preorderV, countV]
  | VNode.number _ => by simp [preorderV, countV]
  | VNode.any _ => by simp [preorderV, countV]
  | VNode.missing _ => by simp [preorderV, countV]
  | VNode.qualifiedValue q v => by
      have := preorderV_length_le_countV v
      simp only [preorderV, countV, List.length_cons]
      omega
  | VNode.sortBy cr => by
      have := preorderV_length_le_countV cr
      simp only [preorderV, countV, List.length_cons]
      omega
  | VNode.compare op v => by
      have := preorderV_length_le_countV v
      simp only [preorderV, countV, List.length_cons]
      omega
  | VNode.range o c => by
      cases o with
      | none =>
        cases c with
        | none => simp [preorderV, countV]
        | some b =>
          have := preorderV_length_le_countV b
          simp only [preorderV, countV, List.length_cons, List.length_append,
            List.nil_append, List.length_nil]
          omega
      | some a =>
        cases c with
        | none =>
          have := preorderV_length_le_countV a
          simp only [preorderV, countV, List.length_cons, List.length_append,
            List.append_nil, List.length_nil]
          omega
        | some b =>
          have ha := preorderV_length_le_countV a
          have hb := preorderV_length_le_countV b
          simp only [preorderV, countV, List.length_cons, List.length_append]
          omega

theorem flatMap_preorderV_length_le (ls : List VNode) :
    (ls.flatMap preorderV).length ≤ (ls.map countV).sum := by
  induction ls with
  | nil => simp
  | cons n ns ih =>
    rw [List.flatMap_cons, List.length_append, List.map_cons, List.sum_cons]
    have := preorderV_length_le_countV n
    omega

theorem validateQuery_length_le (q : QueryNode) (symbols : SymbolTable) :
    (validateQuery q symbols).length ≤ countQ q := by
  have h1 := runQueryWalk_len symbols (queryWalkList q) [] []
  have h2 := flatMap_preorderV_length_le q.nodes
  rw [validateQuery]
  rw [queryWalkList] at *
  rw [countQ]
  simp only [List.length_nil] at h1
  omega

theorem countP_or_self_le (name : String) (ls : List VNode) :
    ls.countP isOrAny + ls.countP (isSelfRef name) ≤ ls.length := by
  induction ls with
  | nil => simp
  | cons n ns ih =>
    rw [List.countP_cons, List.countP_cons, List.length_cons]
    have hone : (if isOrAny n then 1 else 0) + (if isSelfRef name n then 1 else 0) ≤ 1 := by
      cases n <;> simp [isOrAny, isSelfRef] <;> split <;> simp
    omega

theorem validateVariableDefinition_length_le (d : VariableDefinitionNode) :
    (validateVariableDefinition d).length ≤ countDefValue d.value := by
  obtain ⟨name, dv⟩ := d
  cases dv with
  | missing m => simp [validateVariableDefinition, defValueWalkList, countDefValue]
  | query q =>
    show ((queryWalkList q).flatMap (visitDefNode name)).length ≤ countQ q
    rw [flatMap_visitDefNode_length]
    have h1 := countP_or_self_le name (queryWalkList q)
    have h2 := flatMap_preorderV_length_le q.nodes
    rw [queryWalkList] at *
    rw [countQ]
    omega

theorem validateQueryDocument_length_le (symbols : SymbolTable) :
    ∀ ts : List TopNode,
      (validateQueryDocument ⟨ts⟩ symbols).length ≤ 2 * (ts.map countTop).sum := by
  intro ts
  induction ts with
  | nil => simp [validateQueryDocument]
  | cons t ts ih =>
    cases t with
    | query q =>
      show (validateQuery q symbols ++ validateQueryDocument ⟨ts⟩ symbols).length ≤ _
      rw [List.length_append, List.map_cons, List.sum_cons]
      have h1 := validateQuery_length_le q symbols
      simp only [countTop]
      omega
    | varDefn d =>
      obtain ⟨dn, dv⟩ := d
      cases dv with
      | query q =>
        show ((validateVariableDefinition ⟨dn, DefValue.query q⟩ ++
            validateQuery q symbols) ++ validateQueryDocument ⟨ts⟩ symbols).length ≤ _
        rw [List.length_append, List.length_append, List.map_cons, List.sum_cons]
        have h1 := validateVariableDefinition_length_le ⟨dn, DefValue.query q⟩
        have h2 := validateQuery_length_le q symbols
        simp only [countTop, countDefValue] at h1 ⊢
        omega
      | missing m =>
        show ((validateVariableDefinition ⟨dn, DefValue.missing m⟩ ++ []) ++
            validateQueryDocument ⟨ts⟩ symbols).length ≤ _
        rw [List.length_append, List.length_append, List.map_cons, List.sum_cons]
        have h1 := validateVariableDefinition_length_le ⟨dn, DefValue.missing m⟩
        simp only [countTop, countDefValue, List.length_nil] at h1 ⊢
        omega

/-- C4 counterexample: the document `$x = $x $x $x $x $x` (a definition
whose value query holds five self-references) has nine tree nodes yet
produces ten diagnostics over the empty symbol table (five
`Cannot reference a variable from its definition` from the definition
checker, then five `Unknown variable` from the query validator run on the
definition's value) — the claimed node-count bound fails. -/
theorem C4_counterexample :
    (validateQueryDocument
        ⟨[TopNode.varDefn ⟨"x", DefValue.query ⟨[VNode.variableName "x", VNode.variableName "x",
            VNode.variableName "x", VNode.variableName "x", VNode.variableName "x"]⟩⟩]⟩
        symsEmpty).length = 10 ∧
    countNodes
        ⟨[TopNode.varDefn ⟨"x", DefValue.query ⟨[VNode.variableName "x", VNode.variableName "x",
            VNode.variableName "x", VNode.variableName "x", VNode.variableName "x"]⟩⟩]⟩ = 9 := by
  exact ⟨rfl, rfl⟩

/-- C4 amended: `validateQueryDocument` terminates (it is a total
function), never raises (all findings are data), and returns a diagnostics
list whose length never exceeds TWICE the number of nodes in the document
tree — a node inside a definition's value is walked both by the definition
checker and by the query validator, each contributing at most one
diagnostic per node. -/
theorem C4_validate_length_bound (doc : QueryDocumentNode) (symbols : SymbolTable) :
    (validateQueryDocument doc symbols).length ≤ 2 * countNodes doc := by
  obtain ⟨ts⟩ := doc
  have h := validateQueryDocument_length_le symbols ts
  rw [countNodes]
  dsimp only
  omega

/-- A symbol table where `created` expects a Date and `$v` is a declared
Date variable. -/
def symsCreated : SymbolTable :=
  ⟨fun n => if n = "created" then some (QSymbol.static (StaticValue.type ValueType.date))
    else if n = "v" then some (QSymbol.user ValueType.date "2020-01-01") else none⟩

/-- C5 counterexample: "the value subtree passes without a diagnostic
exactly when it is date-like" fails in both directions.  A date-like value
(a Range with a Date boundary) can still produce a diagnostic (the mixed
Range-kind rule), and a non-date-like value (a VariableName resolving to a
Date variable) can pass without any diagnostic. -/
theorem C5_counterexample :
    (validateQueryDocument
        ⟨[TopNode.query ⟨[VNode.qualifiedValue "created"
            (VNode.range (some (VNode.date "2020-01-01")) (some (VNode.number "1")))]⟩]⟩
        symsCreated =
      [⟨VNode.range (some (VNode.date "2020-01-01")) (some (VNode.number "1")),
        "Range must start and end with equals types", none⟩]) ∧
    (isNumberOrDateLike
        (VNode.range (some (VNode.date "2020-01-01")) (some (VNode.number "1")))
        NodeType.date = true) ∧
    (validateQueryDocument
        ⟨[TopNode.query ⟨[VNode.qualifiedValue "created" (VNode.variableName "v")]⟩]⟩
        symsCreated = []) ∧
    (isNumberOrDateLike (VNode.variableName "v") NodeType.date = false) :=
  ⟨rfl, rfl, rfl, rfl⟩

/-- C5 amended: for a Static qualifier expecting Date, the qualifier rule
emits `Invalid value, expected date` for a non-`VariableName` value exactly
when that value is not date-like, and emits nothing for that node
otherwise; date-like means precisely a bare `Date` node, a `Compare` whose
operand is a `Date`, or a `Range` with at least one `Date` boundary; a
bare string `Literal` always yields the diagnostic.  The same holds for
Number-expecting qualifiers with `Invalid value, expected number`.  (Other
rules may still flag nodes inside a date-like value, and a `VariableName`
value is checked by the variable-typing rule instead.) -/
theorem C5_date_number_like (symbols : SymbolTable) (q : String) :
    (∀ (v : VNode) (mm : MutualMap),
      symbols.getFirst q = some (QSymbol.static (StaticValue.type ValueType.date)) →
      v.nodeType ≠ NodeType.variableName →
      visitQueryNode symbols mm (VNode.qualifiedValue q v) =
        (mm, if isNumberOrDateLike v NodeType.date then []
             else [⟨v, "Invalid value, expected date", none⟩])) ∧
    (∀ (v : VNode) (mm : MutualMap),
      symbols.getFirst q = some (QSymbol.static (StaticValue.type ValueType.number)) →
      v.nodeType ≠ NodeType.variableName →
      visitQueryNode symbols mm (VNode.qualifiedValue q v) =
        (mm, if isNumberOrDateLike v NodeType.number then []
             else [⟨v, "Invalid value, expected number", none⟩])) ∧
    (∀ d : String, isNumberOrDateLike (VNode.date d) NodeType.date = true) ∧
    (∀ (op : String) (w : VNode),
      isNumberOrDateLike (VNode.compare op w) NodeType.date = true ↔
        w.nodeType = NodeType.date) ∧
    (∀ o c : Option VNode,
      isNumberOrDateLike (VNode.range o c) NodeType.date = true ↔
        (∃ a, o = some a ∧ a.nodeType = NodeType.date) ∨
        (∃ b, c = some b ∧ b.nodeType = NodeType.date)) ∧
    (∀ v : VNode, isNumberOrDateLike v NodeType.date = true →
      v.nodeType = NodeType.date ∨ v.nodeType = NodeType.compare ∨
        v.nodeType = NodeType.range) ∧
    (∀ (s : String) (mm : MutualMap),
      symbols.getFirst q = some (QSymbol.static (StaticValue.type ValueType.date)) →
      visitQueryNode symbols mm (VNode.qualifiedValue q (VNode.literal s)) =
        (mm, [⟨VNode.literal s, "Invalid value, expected date", none⟩])) := by
  refine ⟨?_, ?_, ?_, ?_, ?_, ?_, ?_⟩
  · intro v mm hq hv
    simp only [visitQueryNode, hq]
    cases v with
    | variableName w => exact absurd rfl hv
    | _ =>
      dsimp only
      (repeat' split) <;> simp_all
  · intro v mm hq hv
    simp only [visitQueryNode, hq]
    cases v with
    | variableName w => exact absurd rfl hv
    | _ =>
      dsimp only
      (repeat' split) <;> simp_all
  · intro d; rfl
  · intro op w
    cases w <;> simp [isNumberOrDateLike, VNode.nodeType]
  · intro o c
    rcases o with _ | a <;> rcases c with _ | b <;>
      simp [isNumberOrDateLike, VNode.nodeType]
  · intro v hv
    cases v <;> simp_all [isNumberOrDateLike, VNode.nodeType]
  · intro s mm hq
    simp [visitQueryNode, hq, isNumberOrDateLike, VNode.nodeType]

/-- Witness for C5's amended theorem: `created:hello` (a bare literal under
a Date qualifier) gets the diagnostic. -/
theorem C5_date_number_like_witness :
    visitQueryNode symsCreated [] (VNode.qualifiedValue "created" (VNode.literal "hello")) =
      ([], [⟨VNode.literal "hello", "Invalid value, expected date", none⟩]) := by
  have h := (C5_date_number_like symsCreated "created").1 (VNode.literal "hello") [] rfl
    (by decide)
  simpa using h

/-! ### C9: the repo extractor -/

theorem strIndexOf_eq_neg_one {sep : Char} :
    ∀ {cs : List Char}, sep ∉ cs → strIndexOf cs sep = -1 := by
  intro cs
  induction cs with
  | nil => intro _; rfl
  | cons x xs ih =>
    intro h
    have hx : ¬ x = sep := fun he => h (he ▸ List.mem_cons_self x xs)
    have hm : sep ∉ xs := fun hm => h (List.mem_cons_of_mem x hm)
    rw [strIndexOf]
    simp [hx, ih hm]

theorem strIndexOf_of_mem {sep : Char} :
    ∀ {cs : List Char}, sep ∈ cs →
      strIndexOf cs sep = ((cs.takeWhile (fun c => c ≠ sep)).length : Int) := by
  intro cs
  induction cs with
  | nil => intro h; exact absurd h (List.not_mem_nil _)
  | cons x xs ih =>
    intro h
    by_cases hx : x = sep
    · subst hx
      rw [strIndexOf]
      simp [List.takeWhile_cons]
    · have hm : sep ∈ xs := by
        rcases List.mem_cons.mp h with h1 | h2
        · exact absurd h1.symm hx
        · exact h2
      rw [strIndexOf, if_neg hx, ih hm]
      have hnn : ¬ ((((xs.takeWhile (fun c => c ≠ sep)).length : Nat) : Int) < 0) := by
        omega
      rw [if_neg hnn]
      rw [List.takeWhile_cons]
      have hcond : decide (x ≠ sep) = true := by simpa using hx
      rw [hcond]
      rw [if_pos rfl, List.length_cons]
      push_cast
      omega

theorem take_takeWhile_length (p : Char → Bool) :
    ∀ cs : List Char, cs.take ((cs.takeWhile p).length) = cs.takeWhile p := by
  intro cs
  induction cs with
  | nil => rfl
  | cons x xs ih =>
    rw [List.takeWhile_cons]
    by_cases hp : p x = true
    · rw [if_pos hp, List.length_cons, List.take_succ_cons, ih]
    · rw [if_neg hp]
      rfl

theorem drop_takeWhile_length (p : Char → Bool) :
    ∀ cs : List Char, cs.drop ((cs.takeWhile p).length) = cs.dropWhile p := by
  intro cs
  induction cs with
  | nil => rfl
  | cons x xs ih =>
    rw [List.takeWhile_cons, List.dropWhile_cons]
    by_cases hp : p x = true
    · rw [if_pos hp, if_pos hp, List.length_cons, List.drop_succ_cons, ih]
    · rw [if_neg hp, if_neg hp]
      rfl

theorem repoSplitSpec_empty : repoSplitSpec "" = [] := rfl

theorem repoSplit_code_eq_spec (s : String) :
    (if strIndexOf s.toList '/' > 0 then
       [(⟨String.mk (s.toList.take (strIndexOf s.toList '/').toNat),
          String.mk (s.toList.drop ((strIndexOf s.toList '/').toNat + 1))⟩ : RepoInfo)]
     else []) = repoSplitSpec s := by
  by_cases hmem : '/' ∈ s.toList
  · have hidx := strIndexOf_of_mem hmem
    by_cases hz : (s.toList.takeWhile (fun c => c ≠ '/')).length = 0
    · rw [hidx, hz]
      rw [if_neg (by norm_num)]
      rw [repoSplitSpec, if_neg (by rintro ⟨h1, h2⟩; omega)]
    · have hpos : (0 : Int) <
          (((s.toList.takeWhile (fun c => c ≠ '/')).length : Nat) : Int) := by
        omega
      rw [hidx, if_pos hpos, repoSplitSpec,
        if_pos ⟨hmem, by omega⟩]
      rw [Int.toNat_natCast, take_takeWhile_length]
      have hdrop : s.toList.drop ((s.toList.takeWhile (fun c => c ≠ '/')).length + 1) =
          (s.toList.dropWhile (fun c => c ≠ '/')).drop 1 := by
        rw [← drop_takeWhile_length (fun c => c ≠ '/') s.toList, List.drop_drop]
      rw [hdrop]
  · rw [strIndexOf_eq_neg_one hmem]
    rw [if_neg (by norm_num)]
    rw [repoSplitSpec, if_neg (fun hc => hmem hc.1)]

theorem filterMap_emit_eq (l : List String) :
    (l.filterMap (fun s =>
      let cs := s.toList
      let idx := strIndexOf cs '/'
      if idx > 0 then
        some (⟨String.mk (cs.take idx.toNat), String.mk (cs.drop (idx.toNat + 1))⟩ : RepoInfo)
      else none)) = l.flatMap repoSplitSpec := by
  induction l with
  | nil => rfl
  | cons a l ih =>
    rw [List.filterMap_cons, List.flatMap_cons, ← repoSplit_code_eq_spec a, ← ih]
    dsimp only
    by_cases h : strIndexOf a.toList '/' > 0
    · rw [if_pos h, if_pos h]
      rfl
    · rw [if_neg h, if_neg h]
      rfl

/-- C9: the extractor collects, in document order, the resolved string of
each `repo:`-qualified value (resolving a `VariableName` through the symbol
table, otherwise printing the value subtree), splits each collected string
at the first `/`, and emits an owner/repo record exactly when that first
separator sits at a position greater than zero — strings with no separator
or with the separator at position 0 are skipped silently, and emission
follows document order. -/
theorem C9_repo_extraction :
    (∀ s1 s2 : String,
      getRepoInfos
        ⟨[TopNode.query ⟨[VNode.qualifiedValue "repo" (VNode.literal s1),
                          VNode.qualifiedValue "repo" (VNode.literal s2)]⟩]⟩ symsEmpty =
        repoSplitSpec s1 ++ repoSplitSpec s2) ∧
    (∀ (s : String) (t : ValueType),
      getRepoInfos
        ⟨[TopNode.query ⟨[VNode.qualifiedValue "repo" (VNode.variableName "v")]⟩]⟩
        ⟨fun n => if n = "v" then some (QSymbol.user t s) else none⟩ =
        repoSplitSpec s) ∧
    (getRepoInfos ⟨[TopNode.query ⟨[VNode.qualifiedValue "repo"
        (VNode.literal "acme/widgets")]⟩]⟩ symsEmpty = [⟨"acme", "widgets"⟩]) ∧
    (getRepoInfos ⟨[TopNode.query ⟨[VNode.qualifiedValue "repo"
        (VNode.literal "nöslash")]⟩]⟩ symsEmpty = []) ∧
    (getRepoInfos ⟨[TopNode.query ⟨[VNode.qualifiedValue "repo"
        (VNode.literal "/widgets")]⟩]⟩ symsEmpty = []) := by
  refine ⟨?_, ?_, ?_, ?_, ?_⟩
  · intro s1 s2
    simp only [getRepoInfos]
    rw [filterMap_emit_eq]
    by_cases h1 : s1 = "" <;> by_cases h2 : s2 = ""
    · subst h1; subst h2
      rfl
    · subst h1
      simp [docWalkVNodes, queryWalkList, preorderV, printV, h2, repoSplitSpec_empty]
    · subst h2
      simp [docWalkVNodes, queryWalkList, preorderV, printV, h1, repoSplitSpec_empty]
    · simp [docWalkVNodes, queryWalkList, preorderV, printV, h1, h2]
  · intro s t
    simp only [getRepoInfos]
    rw [filterMap_emit_eq]
    by_cases hs : s = ""
    · subst hs
      rfl
    · simp [docWalkVNodes, queryWalkList, preorderV, symbolValueString, hs]
  · rfl
  · rfl
  · rfl

/-- Witness for C9 at the spec's scenarios, through the general parts. -/
theorem C9_repo_extraction_witness :
    getRepoInfos
        ⟨[TopNode.query ⟨[VNode.qualifiedValue "repo" (VNode.literal "acme/widgets"),
                          VNode.qualifiedValue "repo" (VNode.literal "octo/kit")]⟩]⟩
        symsEmpty =
      repoSplitSpec "acme/widgets" ++ repoSplitSpec "octo/kit" :=
  (C9_repo_extraction).1 "acme/widgets" "octo/kit"
